import Mathlib

/-!
Shallow embedding of the DDL job scheduler and the schema validator of
this repository, translated from the Go sources: the schema validator of
domain/schema_validator.go and the DDL worker code (buildJobDependence,
addDDLJob, finishDDLJob, handleDDLJobQueue, runDDLJob, waitSchemaChanged,
updateSchemaVersion) of the ddl package.

External collaborators that are not part of the given sources (the meta
queue primitives, the timestamp oracle, the rollbackable predicate of the
admin package, the step functions dispatched per job type, configuration
constants) appear either as parameters of the embedded functions or as
definitions modelled from the specification; each such definition says so
in its doc comment.  A store transaction is one Lean function from stores
to `Except`; a `.error` result means the surrounding transaction rolls
back and no store is committed.
-/

namespace Tidb

/-! ## Schema validator (domain/schema_validator.go) -/

/-- Result of a schema validity check: the `checkResult` constants
`ResultSucc`, `ResultFail`, `ResultUnknown`. -/
inductive CheckResult where
  | succ
  | fail
  | unknown
deriving DecidableEq, Repr

/-- One entry of the delta history (`deltaSchemaInfo`). -/
structure DeltaSchemaInfo where
  schemaVersion : Int
  relatedTableIDs : List Int
deriving DecidableEq, Repr

/-- Modelled from the spec: the fixed configured maximum capacity of the
delta queue (the constant `maxNumberOfDiffsToLoad`, which is declared
outside the given sources; only its role as the capacity matters). -/
def maxNumberOfDiffsToLoad : Nat := 100

/-- State of `schemaValidator`.  Durations and instants are in whole
milliseconds; the mutex is irrelevant for this sequential model. -/
structure SchemaValidator where
  isStarted : Bool
  lease : Int
  latestSchemaVer : Int
  latestSchemaExpire : Int
  deltaSchemaInfos : List DeltaSchemaInfo
deriving DecidableEq, Repr

/-- `NewSchemaValidator`: starts running with an empty delta history. -/
def NewSchemaValidator (lease : Int) : SchemaValidator :=
  { isStarted := true, lease := lease, latestSchemaVer := 0,
    latestSchemaExpire := 0, deltaSchemaInfos := [] }

/-- Modelled from the spec: `oracle.GetTimeFromTS` (outside the given
sources) extracts the wall-clock physical time of a timestamp; the
physical millisecond count occupies the bits above the 18 logical bits. -/
def GetTimeFromTS (ts : Nat) : Int := Int.ofNat (ts >>> 18)

namespace SchemaValidator

/-- `Stop`: halts checking and clears the version and the delta history;
the expiry deadline is left untouched. -/
def Stop (s : SchemaValidator) : SchemaValidator :=
  { s with isStarted := false, latestSchemaVer := 0, deltaSchemaInfos := [] }

/-- `Restart`: only sets the started flag again. -/
def Restart (s : SchemaValidator) : SchemaValidator :=
  { s with isStarted := true }

/-- `Reset`: clears the version and the delta history and resumes. -/
def Reset (s : SchemaValidator) : SchemaValidator :=
  { s with isStarted := true, latestSchemaVer := 0, deltaSchemaInfos := [] }

/-- `enqueue`: append a delta entry, evicting the front entry when the
queue would exceed `maxNumberOfDiffsToLoad`. -/
def enqueue (s : SchemaValidator) (schemaVersion : Int)
    (relatedTableIDs : List Int) : SchemaValidator :=
  let q := s.deltaSchemaInfos ++ [⟨schemaVersion, relatedTableIDs⟩]
  { s with deltaSchemaInfos :=
      if maxNumberOfDiffsToLoad < q.length then q.drop 1 else q }

/-- `Update`: no-op when stopped; otherwise renew the version and the
lease expiry (grant time plus lease minus one millisecond), and enqueue
a delta entry when the version actually changed. -/
def Update (s : SchemaValidator) (leaseGrantTS : Nat)
    (oldVer currVer : Int) (changedTableIDs : List Int) : SchemaValidator :=
  if s.isStarted = false then s
  else
    let s1 := { s with
      latestSchemaVer := currVer,
      latestSchemaExpire := GetTimeFromTS leaseGrantTS + s.lease - 1 }
    if currVer ≠ oldVer then s1.enqueue currVer changedTableIDs else s1

end SchemaValidator

/-- `hasRelatedTableID`: do the two table ID lists intersect. -/
def hasRelatedTableID (relatedTableIDs updateTableIDs : List Int) : Bool :=
  updateTableIDs.any fun tblID =>
    relatedTableIDs.any fun relatedTblID => tblID == relatedTblID

namespace SchemaValidator

/-- `findNewerDeltas`: the maximal suffix of the delta queue all of whose
entries have version strictly greater than `currVer` (the source scans
from the newest end backward while versions exceed `currVer`). -/
def findNewerDeltas (s : SchemaValidator) (currVer : Int) : List DeltaSchemaInfo :=
  ((s.deltaSchemaInfos.reverse.takeWhile
      fun d => decide (currVer < d.schemaVersion))).reverse

/-- `isRelatedTablesChanged`: true on empty history, true when the newer
suffix covers the whole queue, else true when some newer entry mentions a
related table. -/
def isRelatedTablesChanged (s : SchemaValidator) (currVer : Int)
    (tableIDs : List Int) : Bool :=
  if s.deltaSchemaInfos.length = 0 then true
  else
    let newerDeltas := s.findNewerDeltas currVer
    if newerDeltas.length = s.deltaSchemaInfos.length then true
    else newerDeltas.any fun item => hasRelatedTableID item.relatedTableIDs tableIDs

/-- `Check`: validity of using `schemaVer` and `relatedTableIDs` at
transaction timestamp `txnTS`. -/
def Check (s : SchemaValidator) (txnTS : Nat) (schemaVer : Int)
    (relatedTableIDs : List Int) : CheckResult :=
  if s.isStarted = false then .unknown
  else if s.lease = 0 then .succ
  else if schemaVer < s.latestSchemaVer then
    if relatedTableIDs.length = 0 then .fail
    else if s.isRelatedTablesChanged schemaVer relatedTableIDs then .fail
    else .succ
  else if s.latestSchemaExpire < GetTimeFromTS txnTS then .unknown
  else .succ

end SchemaValidator

/-- The stale branch of `Check` as claim C2 words it: the table test is
over every delta entry of version strictly greater than `schemaVer`,
wherever it sits in the queue.  This definition follows the words of the
claim for comparison with the source function. -/
def CheckPerClaim (s : SchemaValidator) (txnTS : Nat) (schemaVer : Int)
    (relatedTableIDs : List Int) : CheckResult :=
  if s.isStarted = false then .unknown
  else if s.lease = 0 then .succ
  else if schemaVer < s.latestSchemaVer then
    if relatedTableIDs.isEmpty
        || (s.findNewerDeltas schemaVer).length == s.deltaSchemaInfos.length
        || s.deltaSchemaInfos.any (fun d =>
             decide (schemaVer < d.schemaVersion)
               && hasRelatedTableID d.relatedTableIDs relatedTableIDs)
    then .fail else .succ
  else if s.latestSchemaExpire < GetTimeFromTS txnTS then .unknown
  else .succ

/-- The stale branch of `Check` as amended: the table test ranges only
over the scanned suffix (`findNewerDeltas`), the maximal suffix whose
entries all have version strictly greater than `schemaVer`. -/
def CheckAmended (s : SchemaValidator) (txnTS : Nat) (schemaVer : Int)
    (relatedTableIDs : List Int) : CheckResult :=
  if s.isStarted = false then .unknown
  else if s.lease = 0 then .succ
  else if schemaVer < s.latestSchemaVer then
    if relatedTableIDs.isEmpty
        || (s.findNewerDeltas schemaVer).length == s.deltaSchemaInfos.length
        || (s.findNewerDeltas schemaVer).any (fun d =>
             hasRelatedTableID d.relatedTableIDs relatedTableIDs)
    then .fail else .succ
  else if s.latestSchemaExpire < GetTimeFromTS txnTS then .unknown
  else .succ

/-- One recorded `Update` call, for reasoning about call sequences. -/
structure UpdateCall where
  leaseGrantTS : Nat
  oldVer : Int
  currVer : Int
  changedTableIDs : List Int
deriving DecidableEq, Repr

/-- Apply a sequence of `Update` calls in order. -/
def applyUpdates (s : SchemaValidator) (cs : List UpdateCall) : SchemaValidator :=
  cs.foldl (fun t c => t.Update c.leaseGrantTS c.oldVer c.currVer c.changedTableIDs) s

/-- The delta entries a sequence of `Update` calls appends on a started
validator: one entry per call whose version actually changed. -/
def enqueuedEntries (cs : List UpdateCall) : List DeltaSchemaInfo :=
  cs.filterMap fun c =>
    if c.currVer ≠ c.oldVer then some ⟨c.currVer, c.changedTableIDs⟩ else none

/-! ## DDL worker (ddl package) -/

/-- DDL action kinds (`model.ActionType`), as dispatched by `runDDLJob`. -/
inductive JobType where
  | createSchema
  | modifySchemaCharsetAndCollate
  | dropSchema
  | createTable
  | createView
  | dropTable
  | dropView
  | dropTablePartition
  | truncateTablePartition
  | addColumn
  | dropColumn
  | modifyColumn
  | setDefaultValue
  | addIndex
  | dropIndex
  | renameIndex
  | addForeignKey
  | dropForeignKey
  | truncateTable
  | rebaseAutoID
  | renameTable
  | shardRowID
  | modifyTableComment
  | addTablePartition
  | modifyTableCharsetAndCollate
  | recoverTable
deriving DecidableEq, Repr

/-- Job states (`model.JobState`). -/
inductive JobState where
  | stateNone
  | running
  | rollingback
  | rollbackDone
  | done
  | cancelled
  | cancelling
  | synced
deriving DecidableEq, Repr

/-- Per-object visibility states (`model.SchemaState`). -/
inductive SchemaState where
  | stateNone
  | deleteOnly
  | writeOnly
  | deleteReorganization
  | writeReorganization
  | public
deriving DecidableEq, Repr

/-- Errors a DDL store transaction can surface.  `entryTooLarge` is
`kv.ErrEntryTooLarge`, `invalidJobVersion` is `errInvalidJobVersion`,
`decodeArgs` stands for a `DecodeArgs` failure, and `external` covers
error outcomes of collaborators outside the given sources. -/
inductive DErr where
  | entryTooLarge
  | invalidJobVersion
  | decodeArgs
  | external (code : Nat)
deriving DecidableEq, Repr

/-- A DDL job (`model.Job`).  `argsVal` models the first decoded raw
argument (the only one the embedded functions inspect: the new table ID
of a truncate, the old schema ID of a rename, the presence of recover
arguments); `binlogFinishedTS` models `BinlogInfo.FinishedTS`. -/
structure Job where
  id : Int
  type : JobType
  schemaID : Int
  tableID : Int
  schemaState : SchemaState
  state : JobState
  error : Option DErr
  errorCount : Int
  dependencyID : Int
  startTS : Nat
  version : Int
  argsVal : Option Int
  binlogFinishedTS : Nat
deriving DecidableEq, Repr

/-- In the src sources: `noneDependencyJob = 0`. -/
def noneDependencyJob : Int := 0

/-- Modelled from the spec: the job format version constant
`currentVersion` of the ddl package (declared outside the given
sources); only comparisons against it matter. -/
def currentVersion : Int := 1

namespace Job

/-- Modelled from the spec: `(*Job).IsDone` of the model package. -/
def IsDone (j : Job) : Bool := j.state == .done

/-- Modelled from the spec: `(*Job).IsRollbackDone` of the model package. -/
def IsRollbackDone (j : Job) : Bool := j.state == .rollbackDone

/-- Modelled from the spec: `(*Job).IsRollingback` of the model package. -/
def IsRollingback (j : Job) : Bool := j.state == .rollingback

/-- Modelled from the spec: `(*Job).IsCancelled` of the model package. -/
def IsCancelled (j : Job) : Bool := j.state == .cancelled

/-- Modelled from the spec: `(*Job).IsCancelling` of the model package. -/
def IsCancelling (j : Job) : Bool := j.state == .cancelling

/-- Modelled from the spec: `(*Job).IsRunning` of the model package. -/
def IsRunning (j : Job) : Bool := j.state == .running

/-- Modelled from the spec: `(*Job).IsSynced` of the model package. -/
def IsSynced (j : Job) : Bool := j.state == .synced

/-- Modelled from the spec: `(*Job).IsFinished` of the model package; a
job is finished in the Done, RollbackDone, Synced or Cancelled state. -/
def IsFinished (j : Job) : Bool :=
  j.state == .done || j.state == .rollbackDone
    || j.state == .synced || j.state == .cancelled

end Job

/-- A per-version change record (`model.SchemaDiff`). -/
structure SchemaDiff where
  version : Int
  type : JobType
  schemaID : Int
  tableID : Int
  oldTableID : Int
  oldSchemaID : Int
deriving DecidableEq, Repr

/-- The two worker kinds (`workerType`): the general worker and the
add-index worker, each owning one job queue. -/
inductive WorkerTp where
  | general
  | addIdx
deriving DecidableEq, Repr

/-- The durable state the embedded DDL functions touch: the global ID
counter, the schema version counter, the two job queues, the history
store and the written schema diffs. -/
structure Store where
  globalID : Int
  schemaVersion : Int
  generalQueue : List Job
  addIdxQueue : List Job
  history : List Job
  diffs : List SchemaDiff
deriving DecidableEq, Repr

/-- The queue a worker kind owns. -/
def ownQueue : WorkerTp → Store → List Job
  | .general, s => s.generalQueue
  | .addIdx, s => s.addIdxQueue

/-- Replace the queue a worker kind owns. -/
def setOwnQueue : WorkerTp → Store → List Job → Store
  | .general, s, q => { s with generalQueue := q }
  | .addIdx, s, q => { s with addIdxQueue := q }

/-- The queue of the other worker kind. -/
def otherQueue : WorkerTp → Store → List Job
  | .general, s => s.addIdxQueue
  | .addIdx, s => s.generalQueue

/-- `newMetaWithQueueTp` keyed by a job type: only an add-index job is
routed to the add-index queue. -/
def jobWorkerTp (tp : JobType) : WorkerTp :=
  if tp = .addIndex then .addIdx else .general

/-- `buildJobDependence`: scan the snapshot `jobs` of the other queue in
its returned order, skip jobs whose ID exceeds the ID of `curJob`, and
set the dependency to the first conflicting job found.  The conflict
predicate `dep` is `(*Job).IsDependentOn` of the model package, taken as
a parameter since it lives outside the given sources. -/
def buildJobDependence (dep : Job → Job → Except DErr Bool)
    (jobs : List Job) (curJob : Job) : Except DErr Job :=
  match jobs with
  | [] => .ok curJob
  | job :: rest =>
    if curJob.id < job.id then buildJobDependence dep rest curJob
    else
      match dep curJob job with
      | .error e => .error e
      | .ok isDependent =>
        if isDependent then .ok { curJob with dependencyID := job.id }
        else buildJobDependence dep rest curJob

/-- `addDDLJob`: the body of the `RunInNewTxn` closure.  `GenGlobalID`
increments the global ID counter and hands out the new value; the job
format version is set before the transaction; the start timestamp of
the transaction becomes the StartTS of the job; the dependency is
computed against the snapshot of the other queue; the job is appended
to the queue of its own kind.  `genIDErr` and `enqueueErr` are the
error outcomes of the external `GenGlobalID` and `EnQueueDDLJob` store
primitives; a `.error` result means the transaction rolls back and
nothing is committed. -/
def addDDLJob (dep : Job → Job → Except DErr Bool)
    (genIDErr enqueueErr : Option DErr)
    (txnStartTS : Nat) (job : Job) (s : Store) : Except DErr Store :=
  match genIDErr with
  | some e => .error e
  | none =>
    match buildJobDependence dep
        (otherQueue (jobWorkerTp job.type) { s with globalID := s.globalID + 1 })
        { job with version := currentVersion, id := s.globalID + 1,
                   startTS := txnStartTS } with
    | .error e => .error e
    | .ok job2 =>
      match enqueueErr with
      | some e => .error e
      | none =>
        .ok (setOwnQueue (jobWorkerTp job.type)
          { s with globalID := s.globalID + 1 }
          (ownQueue (jobWorkerTp job.type) { s with globalID := s.globalID + 1 }
            ++ [job2]))

/-- `deleteRange`: hand the job to the external delete-range manager;
`delRangeErr` is the error outcome of that external call. -/
def deleteRange (delRangeErr : Option DErr) (job : Job) : Option DErr :=
  if job.version ≤ currentVersion then delRangeErr else some .invalidJobVersion

/-- `finishRecoverTable`: decode the recover arguments and possibly
re-enable GC; the GC call is external, its error outcome is the
`recoverErr` parameter. -/
def finishRecoverTable (recoverErr : Option DErr) (job : Job) : Option DErr :=
  match job.argsVal with
  | none => some .decodeArgs
  | some _ => recoverErr

/-- The error outcome of the preparation section of `finishDDLJob`: the
delete-range dispatch for non-cancelled jobs of the range-producing
types, overridden for RecoverTable (which is not a case of the first
switch) by `finishRecoverTable`. -/
def finishDDLJobPrepErr (delRangeErr recoverErr : Option DErr)
    (job : Job) : Option DErr :=
  match job.type with
  | .recoverTable => finishRecoverTable recoverErr job
  | _ =>
    if job.IsCancelled then none
    else
      match job.type with
      | .addIndex =>
        if job.state = .rollbackDone then deleteRange delRangeErr job else none
      | .dropSchema | .dropTable | .truncateTable | .dropIndex
      | .dropTablePartition | .truncateTablePartition => deleteRange delRangeErr job
      | _ => none

/-- `finishDDLJob`: run the delete-range preparation, then dequeue the
head of the own queue and append the job (with its binlog finish
timestamp set to the transaction start timestamp) to history, inside the
same transaction. -/
def finishDDLJob (wtp : WorkerTp) (delRangeErr recoverErr : Option DErr)
    (txnStartTS : Nat) (job : Job) (s : Store) : Except DErr Store :=
  match finishDDLJobPrepErr delRangeErr recoverErr job with
  | some e => .error e
  | none =>
    .ok { setOwnQueue wtp s ((ownQueue wtp s).drop 1) with
          history := (setOwnQueue wtp s ((ownQueue wtp s).drop 1)).history
            ++ [{ job with binlogFinishedTS := txnStartTS }] }

/-- Error outcomes of the external `UpdateDDLJob` write performed by
`updateDDLJob`, as dispatched on by `handleUpdateJobError`. -/
inductive UpdateJobErr where
  | entryTooLarge
  | other (e : DErr)
deriving DecidableEq, Repr

/-- The outcome of one `runDDLJob` call as observed by
`handleDDLJobQueue`: the mutated job, the schema version it bumped to,
its error, the store it wrote, and whether it panicked (in which case
`WithRecovery` leaves version and error at their zero values). -/
structure StepOutcome where
  job : Job
  schemaVer : Int
  runJobErr : Option DErr
  store : Store
  panicked : Bool

/-- The job as `handleDDLJobQueue` sees it after the recovered
`runDDLJob` call: a panic forces the state to Cancelling. -/
def jobAfterStep (o : StepOutcome) : Job :=
  if o.panicked then { o.job with state := .cancelling } else o.job

/-- The part of the `handleDDLJobQueue` transaction body that runs once
the head job was fetched and its dependency found satisfied; `job` is
the head job with its dependency ID cleared.  On the first pass (`once`)
only `waitSchemaSynced` runs, which performs no store writes.  A done or
rollback-done job is finalized (marked Synced first unless rollback
finished); otherwise one recovered `runDDLJob` step runs: a job it left
Cancelled is finalized against the transaction-start store (the
transaction was reset, discarding the writes of the step); otherwise the
job is written back at queue position 0, and when that write fails with
entry-too-large the job is cancelled and finalized instead; any other
write error rolls the transaction back. -/
def handleDDLJobQueueTxnRun (wtp : WorkerTp)
    (stepRes : Job → Store → StepOutcome) (once : Bool)
    (delRangeErr recoverErr : Option DErr)
    (updateErr : Option UpdateJobErr)
    (txnStartTS : Nat) (job : Job) (s : Store) : Except DErr Store :=
  if once = true then .ok s
  else if (job.IsDone || job.IsRollbackDone) = true then
    finishDDLJob wtp delRangeErr recoverErr txnStartTS
      (if !job.IsRollbackDone then { job with state := .synced } else job) s
  else if (jobAfterStep (stepRes job s)).IsCancelled = true then
    finishDDLJob wtp delRangeErr recoverErr txnStartTS
      (jobAfterStep (stepRes job s)) s
  else
    match updateErr with
    | none =>
      .ok (setOwnQueue wtp (stepRes job s).store
        ((ownQueue wtp (stepRes job s).store).set 0 (jobAfterStep (stepRes job s))))
    | some .entryTooLarge =>
      finishDDLJob wtp delRangeErr recoverErr txnStartTS
        { jobAfterStep (stepRes job s) with
          error := some .entryTooLarge,
          schemaState := .stateNone,
          state := .cancelled }
        (stepRes job s).store
    | some (.other e) => .error e

/-- One iteration of the `handleDDLJobQueue` loop, restricted to the body
of its `RunInNewTxn` closure.  `stepRes` abstracts the recovered
`runDDLJob` call; `once` is the loop flag selecting the one-time
`waitSchemaSynced` pass; `updateErr` is the error outcome of the
external `UpdateDDLJob` write.  A `.error` result rolls the transaction
back. -/
def handleDDLJobQueueTxn (wtp : WorkerTp)
    (stepRes : Job → Store → StepOutcome)
    (isOwner once : Bool)
    (delRangeErr recoverErr : Option DErr)
    (updateErr : Option UpdateJobErr)
    (txnStartTS : Nat) (s : Store) : Except DErr Store :=
  if isOwner = false then .ok s
  else
    match (ownQueue wtp s).head? with
    | none => .ok s
    | some job =>
      if (job.dependencyID == noneDependencyJob
          || s.history.any fun h => h.id == job.dependencyID) = false then .ok s
      else
        handleDDLJobQueueTxnRun wtp stepRes once delRangeErr recoverErr updateErr
          txnStartTS
          (if job.dependencyID == noneDependencyJob then job
            else { job with dependencyID := noneDependencyJob }) s

/-- The state `runDDLJob` gives the job right before dispatching: force
it to Running unless it is rolling back or cancelling. -/
def runDDLJobStartState (job : Job) : Job :=
  if !job.IsRollingback && !job.IsCancelling then { job with state := .running } else job

/-- `runDDLJob`: early-return on finished jobs, convert cancelling jobs
to rollback jobs (`convert` abstracts `convertJob2RollbackJob`, which is
outside the given sources), otherwise dispatch one step (`dispatch`
abstracts the per-type step functions) and run the error epilogue:
record the error and bump the error count; return no error when the job
ended up Cancelled; force the state to Cancelling when the bumped count
exceeds `limit` while the job is Running and `rollbackable` (the
`admin.IsJobRollbackable` predicate, outside the given sources) holds. -/
def runDDLJob (dispatch : Job → Job × Int × Option DErr)
    (convert : Job → Job × Int × Option DErr)
    (limit : Int) (rollbackable : Job → Bool)
    (job : Job) : Job × Int × Option DErr :=
  if job.IsFinished then (job, 0, none)
  else if job.IsCancelling then convert job
  else
    let r := dispatch (runDDLJobStartState job)
    match r.2.2 with
    | none => r
    | some e =>
      let j := { r.1 with error := some e, errorCount := r.1.errorCount + 1 }
      if j.state = .cancelled then (j, r.2.1, none)
      else if limit < j.errorCount ∧ j.state = .running ∧ rollbackable j then
        ({ j with state := .cancelling }, r.2.1, some e)
      else (j, r.2.1, some e)

/-- `chooseLeaseTime`: cap a duration at `mx`, substituting `mx` for a
zero duration. -/
def chooseLeaseTime (t mx : Int) : Int :=
  if t = 0 ∨ mx < t then mx else t

/-- The timeout `handleDDLJobQueue` passes to `waitSchemaChanged`:
twice the schema lease. -/
def handleDDLJobWaitTime (lease : Int) : Int := 2 * lease

/-- The early-return structure of `waitSchemaChanged`: `none` when the
function returns without waiting (job in no propagating state, zero wait
time, or unchanged schema version), otherwise the context timeout it
waits under. -/
def waitSchemaChanged (job : Job) (waitTime : Int)
    (latestSchemaVersion : Int) : Option Int :=
  if !job.IsRunning && !job.IsRollingback && !job.IsDone && !job.IsRollbackDone then none
  else if waitTime = 0 then none
  else if latestSchemaVersion = 0 then none
  else some waitTime

/-- `updateSchemaVersion`: bump the schema version counter, build the
schema diff (special-casing truncate and rename), write the diff, and
return the version together with the new store and the error outcome (a
failed argument decode leaves the bumped counter but writes no diff and
returns version 0). -/
def updateSchemaVersion (job : Job) (s : Store) : Int × Store × Option DErr :=
  let schemaVersion := s.schemaVersion + 1
  let s1 := { s with schemaVersion := schemaVersion }
  let base : SchemaDiff :=
    { version := schemaVersion, type := job.type, schemaID := job.schemaID,
      tableID := 0, oldTableID := 0, oldSchemaID := 0 }
  if job.type = .truncateTable then
    match job.argsVal with
    | none => (0, s1, some .decodeArgs)
    | some newTableID =>
      let diff := { base with tableID := newTableID, oldTableID := job.tableID }
      (schemaVersion, { s1 with diffs := s1.diffs ++ [diff] }, none)
  else if job.type = .renameTable then
    match job.argsVal with
    | none => (0, s1, some .decodeArgs)
    | some oldSchemaID =>
      let diff := { base with oldSchemaID := oldSchemaID, tableID := job.tableID }
      (schemaVersion, { s1 with diffs := s1.diffs ++ [diff] }, none)
  else
    let diff := { base with tableID := job.tableID }
    (schemaVersion, { s1 with diffs := s1.diffs ++ [diff] }, none)

/-- The suffix of the most recent `n` elements of `l` (all of `l` when
`l` is shorter than `n`). -/
def lastN (n : Nat) (l : List α) : List α := l.drop (l.length - n)

/-! ## Theorems -/

/-- Appending to a sliding window of capacity `m`, evicting the front
element on overflow, keeps exactly the last `m` appended elements. -/
theorem lastN_snoc (m : Nat) (L : List α) (x : α) :
    (if m < (lastN m L ++ [x]).length then (lastN m L ++ [x]).drop 1
      else lastN m L ++ [x]) = lastN m (L ++ [x]) := by
  by_cases h : L.length < m
  · have h0 : L.length - m = 0 := by omega
    have hL : lastN m L = L := by
      unfold lastN; rw [h0]; exact List.drop_zero L
    have hR : lastN m (L ++ [x]) = L ++ [x] := by
      unfold lastN
      have h1 : (L ++ [x]).length - m = 0 := by
        simp only [List.length_append, List.length_cons, List.length_nil]; omega
      rw [h1]; exact List.drop_zero _
    rw [hL, hR,
      if_neg (by simp only [List.length_append, List.length_cons, List.length_nil]; omega)]
  · push_neg at h
    have hlen : (lastN m L).length = m := by
      unfold lastN; rw [List.length_drop]; omega
    have hcond : m < (lastN m L ++ [x]).length := by
      simp only [List.length_append, List.length_cons, List.length_nil, hlen]; omega
    rw [if_pos hcond]
    by_cases hm : m = 0
    · subst hm
      have hL : lastN 0 L = [] := by
        unfold lastN; simp [List.drop_length]
      have hR : lastN 0 (L ++ [x]) = [] := by
        unfold lastN; simp [List.drop_length]
      rw [hL, hR]
      rfl
    · have h1le : 1 ≤ (lastN m L).length := by omega
      rw [List.drop_append_of_le_length h1le]
      unfold lastN
      rw [List.drop_drop]
      have hlen2 : (L ++ [x]).length - m = L.length + 1 - m := by
        simp only [List.length_append, List.length_cons, List.length_nil]
      rw [hlen2,
        List.drop_append_of_le_length (by omega : L.length + 1 - m ≤ L.length)]
      have hidx : L.length - m + 1 = L.length + 1 - m := by omega
      rw [hidx]

/-- `enqueue` keeps the invariant that the delta queue is the window of
the last `maxNumberOfDiffsToLoad` appended entries. -/
theorem SchemaValidator.enqueue_deltas (s : SchemaValidator)
    (L : List DeltaSchemaInfo) (x : Int) (ids : List Int)
    (hL : s.deltaSchemaInfos = lastN maxNumberOfDiffsToLoad L) :
    (s.enqueue x ids).deltaSchemaInfos
      = lastN maxNumberOfDiffsToLoad (L ++ [⟨x, ids⟩]) := by
  unfold SchemaValidator.enqueue
  simp only [hL]
  exact lastN_snoc maxNumberOfDiffsToLoad L ⟨x, ids⟩

set_option maxHeartbeats 1000000 in
/-- A sequence of `Update` calls on a started validator leaves the delta
queue equal to the window of the last `maxNumberOfDiffsToLoad` entries
ever appended. -/
theorem applyUpdates_deltas (cs : List UpdateCall) (s : SchemaValidator)
    (L : List DeltaSchemaInfo)
    (hs : s.isStarted = true)
    (hL : s.deltaSchemaInfos = lastN maxNumberOfDiffsToLoad L) :
    (applyUpdates s cs).deltaSchemaInfos
      = lastN maxNumberOfDiffsToLoad (L ++ enqueuedEntries cs) := by
  induction cs generalizing s L with
  | nil => simpa [applyUpdates, enqueuedEntries] using hL
  | cons c cs ih =>
    have hstep : applyUpdates s (c :: cs)
        = applyUpdates (s.Update c.leaseGrantTS c.oldVer c.currVer c.changedTableIDs) cs := by
      simp [applyUpdates]
    rw [hstep]
    have hst : (s.Update c.leaseGrantTS c.oldVer c.currVer c.changedTableIDs).isStarted = true := by
      unfold SchemaValidator.Update SchemaValidator.enqueue
      by_cases hv : c.currVer ≠ c.oldVer <;> simp [hs, hv]
    by_cases hv : c.currVer ≠ c.oldVer
    · have hd : (s.Update c.leaseGrantTS c.oldVer c.currVer c.changedTableIDs).deltaSchemaInfos
          = lastN maxNumberOfDiffsToLoad (L ++ [⟨c.currVer, c.changedTableIDs⟩]) := by
        unfold SchemaValidator.Update
        simp only [hs, Bool.true_eq_false, if_false, if_pos hv]
        exact SchemaValidator.enqueue_deltas _ L _ _ hL
      have hE : enqueuedEntries (c :: cs)
          = ⟨c.currVer, c.changedTableIDs⟩ :: enqueuedEntries cs := by
        simp [enqueuedEntries, hv]
      rw [hE]
      have h3 : (applyUpdates (s.Update c.leaseGrantTS c.oldVer c.currVer c.changedTableIDs) cs).deltaSchemaInfos
          = lastN maxNumberOfDiffsToLoad
              ((L ++ [⟨c.currVer, c.changedTableIDs⟩]) ++ enqueuedEntries cs) := by
        apply ih
        · exact hst
        · exact hd
      rw [h3, List.append_assoc]
      rfl
    · have hd : (s.Update c.leaseGrantTS c.oldVer c.currVer c.changedTableIDs).deltaSchemaInfos
          = lastN maxNumberOfDiffsToLoad L := by
        unfold SchemaValidator.Update
        simp only [hs, Bool.true_eq_false, if_false, if_neg hv]
        exact hL
      have hE : enqueuedEntries (c :: cs) = enqueuedEntries cs := by
        simp [enqueuedEntries, hv]
      rw [hE]
      have h3 : (applyUpdates (s.Update c.leaseGrantTS c.oldVer c.currVer c.changedTableIDs) cs).deltaSchemaInfos
          = lastN maxNumberOfDiffsToLoad (L ++ enqueuedEntries cs) := by
        apply ih
        · exact hst
        · exact hd
      rw [h3]

/-- Claim C9: over every sequence of `Update` calls from a fresh
validator, the delta queue never exceeds the configured capacity, and it
is exactly the window of the most recently appended entries in append
order, the oldest entry being evicted on each overflowing append. -/
theorem update_delta_queue_bounded (lease : Int) (cs : List UpdateCall) :
    ((applyUpdates (NewSchemaValidator lease) cs).deltaSchemaInfos).length
        ≤ maxNumberOfDiffsToLoad
      ∧ (applyUpdates (NewSchemaValidator lease) cs).deltaSchemaInfos
        = lastN maxNumberOfDiffsToLoad (enqueuedEntries cs) := by
  have h := applyUpdates_deltas cs (NewSchemaValidator lease) [] rfl
    (by simp [lastN, NewSchemaValidator])
  simp only [List.nil_append] at h
  refine ⟨?_, h⟩
  rw [h]
  unfold lastN
  rw [List.length_drop]
  omega

/-- The branch structure of `isRelatedTablesChanged` collapses to one
boolean: the newer suffix covers the whole queue, or some newer entry
mentions a related table (the empty-queue early return coincides with
the whole-queue case). -/
theorem SchemaValidator.isRelatedTablesChanged_eq (s : SchemaValidator)
    (v : Int) (t : List Int) :
    s.isRelatedTablesChanged v t =
      ((s.findNewerDeltas v).length == s.deltaSchemaInfos.length
        || (s.findNewerDeltas v).any fun item =>
             hasRelatedTableID item.relatedTableIDs t) := by
  unfold SchemaValidator.isRelatedTablesChanged
  split
  · next h =>
    have hq : s.deltaSchemaInfos = [] := List.length_eq_zero.mp h
    simp [SchemaValidator.findNewerDeltas, hq]
  · next h =>
    by_cases h2 : (s.findNewerDeltas v).length = s.deltaSchemaInfos.length
    · simp [h2]
    · simp [h2]

/-- Claim C2: corrected form.  `Check` is exactly the claimed
three-branch decision, with the stale branch failing when the related
set is empty, when the suffix of strictly newer delta entries covers the
whole queue, or when some entry of that scanned suffix mentions a
related table, and succeeding otherwise; the fresh branch succeeds
exactly when the transaction time is not after the expiry deadline. -/
theorem Check_staleness_characterization (s : SchemaValidator)
    (txnTS : Nat) (schemaVer : Int) (rel : List Int) :
    s.Check txnTS schemaVer rel = CheckAmended s txnTS schemaVer rel := by
  unfold SchemaValidator.Check CheckAmended
  by_cases h1 : s.isStarted = false
  · simp [h1]
  · by_cases h2 : s.lease = 0
    · simp [h1, h2]
    · by_cases h3 : schemaVer < s.latestSchemaVer
      · simp only [h1, h2, h3, if_true, if_false]
        cases rel with
        | nil => simp
        | cons a l =>
          simp only [List.length_cons, List.isEmpty_cons, Bool.false_or]
          rw [SchemaValidator.isRelatedTablesChanged_eq]
          have hlen : ¬((l.length + 1 : Nat) = 0) := by omega
          simp [hlen]
      · simp [h1, h2, h3]

/-- Claim C2: counterexample to the claim as stated.  On a validator
state whose delta queue is not version-sorted (reachable by the Update
calls 0 to 5, 5 to 2, 2 to 4), the entry of version 5 mentions table 1
and 5 is strictly greater than the used version 3, so the claim says
Fail, but `Check` only scans the suffix of entries newer than 3 and
answers Succ. -/
theorem Check_claim_counterexample :
    (SchemaValidator.Check
        ⟨true, 1, 4, 0, [⟨5, [1]⟩, ⟨2, []⟩, ⟨4, []⟩]⟩ 0 3 [1] = .succ)
      ∧ (CheckPerClaim
        ⟨true, 1, 4, 0, [⟨5, [1]⟩, ⟨2, []⟩, ⟨4, []⟩]⟩ 0 3 [1] = .fail) := by
  constructor
  · rfl
  · rfl

/-- Claim C3: corrected form.  After `Stop`, every `Check` returns
Unknown; `Restart` then only sets the started flag again, so checking
resumes on version 0 with an empty delta history (the version last set
by `Update` was cleared by `Stop`), with only the lease and the expiry
deadline surviving. -/
theorem Stop_Restart_check_behavior (s : SchemaValidator) (txnTS : Nat)
    (schemaVer : Int) (rel : List Int) :
    s.Stop.Check txnTS schemaVer rel = .unknown
      ∧ s.Stop.Restart
        = { s with isStarted := true, latestSchemaVer := 0, deltaSchemaInfos := [] } := by
  constructor
  · rfl
  · rfl

/-- Claim C3: counterexample to the claim as stated.  Update to version
5, stop, restart: were `Check` resuming with the pre-stop version 5, a
check of used version 3 with no related tables would Fail (as it does
right before the stop); instead it answers Succ, because `Stop` reset
the version to 0. -/
theorem Stop_Restart_claim_counterexample :
    ((((NewSchemaValidator 1).Update 0 0 5 [1]).Stop.Restart.Check 0 3 [] = .succ)
      ∧ (((NewSchemaValidator 1).Update 0 0 5 [1]).Check 0 3 [] = .fail)
      ∧ ((((NewSchemaValidator 1).Update 0 0 5 [1]).Stop.Restart).latestSchemaVer = 0)
      ∧ ((((NewSchemaValidator 1).Update 0 0 5 [1])).latestSchemaVer = 5)) := by
  refine ⟨rfl, rfl, rfl, rfl⟩

/-- Claim C10: neither `Stop` nor `Reset` touches the expiry deadline;
both clear the version and the delta queue, `Stop` clears the started
flag and `Reset` sets it; consequently, right after `Reset` following an
`Update`, a `Check` with a nonnegative schema version still answers Succ
on the strength of the expiry deadline the `Update` recorded. -/
theorem stop_reset_preserve_expire (s : SchemaValidator) (grantTS : Nat)
    (oldV newV : Int) (ids : List Int) (txnTS : Nat) (ver : Int) (rel : List Int)
    (h1 : s.isStarted = true) (h2 : ¬s.lease = 0) (h3 : 0 ≤ ver)
    (h4 : GetTimeFromTS txnTS ≤ (s.Update grantTS oldV newV ids).latestSchemaExpire) :
    s.Stop.latestSchemaExpire = s.latestSchemaExpire
      ∧ s.Reset.latestSchemaExpire = s.latestSchemaExpire
      ∧ s.Stop.isStarted = false ∧ s.Reset.isStarted = true
      ∧ s.Stop.latestSchemaVer = 0 ∧ s.Reset.latestSchemaVer = 0
      ∧ s.Stop.deltaSchemaInfos = [] ∧ s.Reset.deltaSchemaInfos = []
      ∧ (s.Update grantTS oldV newV ids).Reset.Check txnTS ver rel = .succ := by
  refine ⟨rfl, rfl, rfl, rfl, rfl, rfl, rfl, rfl, ?_⟩
  have hlease : (s.Update grantTS oldV newV ids).lease = s.lease := by
    unfold SchemaValidator.Update SchemaValidator.enqueue
    by_cases hv : newV ≠ oldV <;> simp [h1, hv]
  have hnv : ¬(ver < (0 : Int)) := by omega
  have hne : ¬((s.Update grantTS oldV newV ids).latestSchemaExpire
      < GetTimeFromTS txnTS) := by omega
  simp [SchemaValidator.Reset, SchemaValidator.Check, hlease, h2, hnv, hne]

/-- Witness for claim C10 at a concrete validator: lease one
millisecond, update to version 5 at grant timestamp 0, reset, then check
version 0 at transaction timestamp 0. -/
theorem stop_reset_preserve_expire_witness :
    (NewSchemaValidator 1).Stop.latestSchemaExpire
        = (NewSchemaValidator 1).latestSchemaExpire
      ∧ (NewSchemaValidator 1).Reset.latestSchemaExpire
        = (NewSchemaValidator 1).latestSchemaExpire
      ∧ (NewSchemaValidator 1).Stop.isStarted = false
      ∧ (NewSchemaValidator 1).Reset.isStarted = true
      ∧ (NewSchemaValidator 1).Stop.latestSchemaVer = 0
      ∧ (NewSchemaValidator 1).Reset.latestSchemaVer = 0
      ∧ (NewSchemaValidator 1).Stop.deltaSchemaInfos = []
      ∧ (NewSchemaValidator 1).Reset.deltaSchemaInfos = []
      ∧ ((NewSchemaValidator 1).Update 0 0 5 [1]).Reset.Check 0 0 [7] = .succ :=
  stop_reset_preserve_expire (NewSchemaValidator 1) 0 0 5 [1] 0 0 [7]
    rfl (by decide) (by decide) (by decide)

/-- Claim C4: corrected form.  The timeout the worker loop hands to
`waitSchemaChanged` is exactly twice the schema lease, with no lower
bound; in particular, with a zero lease `waitSchemaChanged` returns at
once without waiting, and with a nonzero lease and a changed version on
a propagating job it waits under exactly the 2-lease timeout. -/
theorem waitSchemaChanged_timeout_spec (lease ver : Int) (job : Job) :
    handleDDLJobWaitTime lease = 2 * lease
      ∧ (lease = 0 → waitSchemaChanged job (handleDDLJobWaitTime lease) ver = none)
      ∧ ((job.IsRunning || job.IsRollingback || job.IsDone || job.IsRollbackDone) = true →
          lease ≠ 0 → ver ≠ 0 →
          waitSchemaChanged job (handleDDLJobWaitTime lease) ver = some (2 * lease)) := by
  refine ⟨rfl, ?_, ?_⟩
  · intro h0
    subst h0
    unfold waitSchemaChanged handleDDLJobWaitTime
    by_cases hg : (!job.IsRunning && !job.IsRollingback
        && !job.IsDone && !job.IsRollbackDone) = true
    · simp [hg]
    · simp [hg]
  · intro hj hl hv
    unfold waitSchemaChanged handleDDLJobWaitTime
    have hg : (!job.IsRunning && !job.IsRollingback
        && !job.IsDone && !job.IsRollbackDone) = false := by
      cases ha : job.IsRunning <;> cases hb : job.IsRollingback
        <;> cases hc : job.IsDone <;> cases hd : job.IsRollbackDone
        <;> simp_all
    have hw : ¬((2 : Int) * lease = 0) := by omega
    simp [hg, hw, hv]

/-- Claim C4: counterexample to the claim as stated.  With a zero lease
the computed timeout is 0, which is less than one second (1000
milliseconds), and `waitSchemaChanged` returns immediately without any
wait even for a running job with a changed schema version. -/
theorem waitSchemaChanged_claim_counterexample :
    handleDDLJobWaitTime 0 = 0
      ∧ ¬((1000 : Int) ≤ handleDDLJobWaitTime 0)
      ∧ waitSchemaChanged
          ⟨1, .createTable, 1, 1, .public, .running, none, 0, 0, 0, 1, none, 0⟩
          (handleDDLJobWaitTime 0) 5 = none := by
  refine ⟨rfl, by decide, rfl⟩

/-- Witness for claim C4: at lease 0 no wait happens, at lease 1 a
running job with changed version 5 waits under timeout 2. -/
theorem waitSchemaChanged_timeout_spec_witness :
    waitSchemaChanged
        ⟨1, .createTable, 1, 1, .public, .running, none, 0, 0, 0, 1, none, 0⟩
        (handleDDLJobWaitTime 0) 5 = none
      ∧ waitSchemaChanged
        ⟨1, .createTable, 1, 1, .public, .running, none, 0, 0, 0, 1, none, 0⟩
        (handleDDLJobWaitTime 1) 5 = some 2 :=
  ⟨(waitSchemaChanged_timeout_spec 0 5
      ⟨1, .createTable, 1, 1, .public, .running, none, 0, 0, 0, 1, none, 0⟩).2.1 rfl,
   (waitSchemaChanged_timeout_spec 1 5
      ⟨1, .createTable, 1, 1, .public, .running, none, 0, 0, 0, 1, none, 0⟩).2.2
     (by decide) (by decide) (by decide)⟩

/-- Claim C6: counterexample to the claim as stated.  For a rename job
on table 7 (the table ID of a rename is unchanged, so old and new table
ID are both 7) the written diff records OldTableID 0: it carries the old
schema ID decoded from the arguments, not both table IDs. -/
theorem updateSchemaVersion_rename_counterexample :
    updateSchemaVersion
        ⟨1, .renameTable, 2, 7, .public, .running, none, 0, 0, 0, 1, some 3, 0⟩
        ⟨0, 0, [], [], [], []⟩
      = (1, ⟨0, 1, [], [], [], [⟨1, .renameTable, 2, 7, 0, 3⟩]⟩, none)
      ∧ ¬((⟨1, .renameTable, 2, 7, 0, 3⟩ : SchemaDiff).oldTableID = 7
            ∧ (⟨1, .renameTable, 2, 7, 0, 3⟩ : SchemaDiff).tableID = 7) := by
  exact ⟨rfl, by decide⟩

/-- Claim C6: corrected form.  On a successful argument decode,
`updateSchemaVersion` bumps the schema version counter once, writes
exactly one diff keyed by the bumped version and carrying the job type
and schema ID, and returns the version; a TruncateTable diff carries the
old table ID in OldTableID and the decoded new table ID in TableID,
while a RenameTable diff carries the decoded old schema ID in
OldSchemaID and the unchanged table ID in TableID, leaving OldTableID
zero. -/
theorem updateSchemaVersion_spec (job : Job) (s : Store)
    (h : (job.type = .truncateTable ∨ job.type = .renameTable)
          → job.argsVal.isSome = true) :
    (updateSchemaVersion job s).1 = s.schemaVersion + 1
      ∧ (updateSchemaVersion job s).2.2 = none
      ∧ (updateSchemaVersion job s).2.1.schemaVersion = s.schemaVersion + 1
      ∧ (updateSchemaVersion job s).2.1.globalID = s.globalID
      ∧ (updateSchemaVersion job s).2.1.generalQueue = s.generalQueue
      ∧ (updateSchemaVersion job s).2.1.addIdxQueue = s.addIdxQueue
      ∧ (updateSchemaVersion job s).2.1.history = s.history
      ∧ ∃ d : SchemaDiff,
          (updateSchemaVersion job s).2.1.diffs = s.diffs ++ [d]
          ∧ d.version = s.schemaVersion + 1
          ∧ d.type = job.type
          ∧ d.schemaID = job.schemaID
          ∧ (job.type = .truncateTable →
              d.tableID = job.argsVal.getD 0 ∧ d.oldTableID = job.tableID)
          ∧ (job.type = .renameTable →
              d.oldSchemaID = job.argsVal.getD 0 ∧ d.tableID = job.tableID
                ∧ d.oldTableID = 0)
          ∧ (job.type ≠ .truncateTable → job.type ≠ .renameTable →
              d.tableID = job.tableID ∧ d.oldTableID = 0 ∧ d.oldSchemaID = 0) := by
  by_cases ht : job.type = .truncateTable
  · obtain ⟨a, ha⟩ := Option.isSome_iff_exists.mp (h (Or.inl ht))
    unfold updateSchemaVersion
    rw [if_pos ht, ha]
    refine ⟨rfl, rfl, rfl, rfl, rfl, rfl, rfl, _, rfl, rfl, rfl, rfl, ?_, ?_, ?_⟩
    · intro _
      exact ⟨rfl, rfl⟩
    · intro hr
      rw [ht] at hr
      cases hr
    · intro hnt _
      exact absurd ht hnt
  · by_cases hr : job.type = .renameTable
    · obtain ⟨a, ha⟩ := Option.isSome_iff_exists.mp (h (Or.inr hr))
      unfold updateSchemaVersion
      rw [if_neg ht, if_pos hr, ha]
      refine ⟨rfl, rfl, rfl, rfl, rfl, rfl, rfl, _, rfl, rfl, rfl, rfl, ?_, ?_, ?_⟩
      · intro ht2
        exact absurd ht2 ht
      · intro _
        exact ⟨rfl, rfl, rfl⟩
      · intro _ hnr
        exact absurd hr hnr
    · unfold updateSchemaVersion
      rw [if_neg ht, if_neg hr]
      refine ⟨rfl, rfl, rfl, rfl, rfl, rfl, rfl, _, rfl, rfl, rfl, rfl, ?_, ?_, ?_⟩
      · intro ht2
        exact absurd ht2 ht
      · intro hr2
        exact absurd hr2 hr
      · intro _ _
        exact ⟨rfl, rfl, rfl⟩

/-- Witness for claim C6 at a concrete truncate job: old table 7, new
table 9 decoded from the arguments, starting from schema version 0. -/
theorem updateSchemaVersion_spec_witness :
    (updateSchemaVersion
        ⟨1, .truncateTable, 2, 7, .public, .running, none, 0, 0, 0, 1, some 9, 0⟩
        ⟨0, 0, [], [], [], []⟩).1 = (⟨0, 0, [], [], [], []⟩ : Store).schemaVersion + 1
      ∧ (updateSchemaVersion
        ⟨1, .truncateTable, 2, 7, .public, .running, none, 0, 0, 0, 1, some 9, 0⟩
        ⟨0, 0, [], [], [], []⟩).2.2 = none
      ∧ (updateSchemaVersion
        ⟨1, .truncateTable, 2, 7, .public, .running, none, 0, 0, 0, 1, some 9, 0⟩
        ⟨0, 0, [], [], [], []⟩).2.1.schemaVersion
          = (⟨0, 0, [], [], [], []⟩ : Store).schemaVersion + 1
      ∧ (updateSchemaVersion
        ⟨1, .truncateTable, 2, 7, .public, .running, none, 0, 0, 0, 1, some 9, 0⟩
        ⟨0, 0, [], [], [], []⟩).2.1.globalID = (⟨0, 0, [], [], [], []⟩ : Store).globalID
      ∧ (updateSchemaVersion
        ⟨1, .truncateTable, 2, 7, .public, .running, none, 0, 0, 0, 1, some 9, 0⟩
        ⟨0, 0, [], [], [], []⟩).2.1.generalQueue
          = (⟨0, 0, [], [], [], []⟩ : Store).generalQueue
      ∧ (updateSchemaVersion
        ⟨1, .truncateTable, 2, 7, .public, .running, none, 0, 0, 0, 1, some 9, 0⟩
        ⟨0, 0, [], [], [], []⟩).2.1.addIdxQueue
          = (⟨0, 0, [], [], [], []⟩ : Store).addIdxQueue
      ∧ (updateSchemaVersion
        ⟨1, .truncateTable, 2, 7, .public, .running, none, 0, 0, 0, 1, some 9, 0⟩
        ⟨0, 0, [], [], [], []⟩).2.1.history = (⟨0, 0, [], [], [], []⟩ : Store).history
      ∧ ∃ d : SchemaDiff,
          (updateSchemaVersion
            ⟨1, .truncateTable, 2, 7, .public, .running, none, 0, 0, 0, 1, some 9, 0⟩
            ⟨0, 0, [], [], [], []⟩).2.1.diffs = (⟨0, 0, [], [], [], []⟩ : Store).diffs ++ [d]
          ∧ d.version = (⟨0, 0, [], [], [], []⟩ : Store).schemaVersion + 1
          ∧ d.type = Job.type ⟨1, .truncateTable, 2, 7, .public, .running, none, 0, 0, 0, 1, some 9, 0⟩
          ∧ d.schemaID = Job.schemaID ⟨1, .truncateTable, 2, 7, .public, .running, none, 0, 0, 0, 1, some 9, 0⟩
          ∧ (Job.type ⟨1, .truncateTable, 2, 7, .public, .running, none, 0, 0, 0, 1, some 9, 0⟩ = .truncateTable →
              d.tableID = (Job.argsVal ⟨1, .truncateTable, 2, 7, .public, .running, none, 0, 0, 0, 1, some 9, 0⟩).getD 0
                ∧ d.oldTableID = Job.tableID ⟨1, .truncateTable, 2, 7, .public, .running, none, 0, 0, 0, 1, some 9, 0⟩)
          ∧ (Job.type ⟨1, .truncateTable, 2, 7, .public, .running, none, 0, 0, 0, 1, some 9, 0⟩ = .renameTable →
              d.oldSchemaID = (Job.argsVal ⟨1, .truncateTable, 2, 7, .public, .running, none, 0, 0, 0, 1, some 9, 0⟩).getD 0
                ∧ d.tableID = Job.tableID ⟨1, .truncateTable, 2, 7, .public, .running, none, 0, 0, 0, 1, some 9, 0⟩
                ∧ d.oldTableID = 0)
          ∧ (Job.type ⟨1, .truncateTable, 2, 7, .public, .running, none, 0, 0, 0, 1, some 9, 0⟩ ≠ .truncateTable →
              Job.type ⟨1, .truncateTable, 2, 7, .public, .running, none, 0, 0, 0, 1, some 9, 0⟩ ≠ .renameTable →
              d.tableID = Job.tableID ⟨1, .truncateTable, 2, 7, .public, .running, none, 0, 0, 0, 1, some 9, 0⟩
                ∧ d.oldTableID = 0 ∧ d.oldSchemaID = 0) :=
  updateSchemaVersion_spec
    ⟨1, .truncateTable, 2, 7, .public, .running, none, 0, 0, 0, 1, some 9, 0⟩
    ⟨0, 0, [], [], [], []⟩ (fun _ => rfl)

/-- Claim C8: when the step dispatch inside `runDDLJob` returns an error
and leaves the job outside the Cancelled state, the epilogue records the
error on the job and bumps its error count, and it force-transitions the
state to Cancelling exactly when the bumped count exceeds the limit
while the job is Running and its type permits rollback; otherwise the
job is returned unchanged beyond the error fields, still queued for
retry. -/
theorem runDDLJob_error_epilogue
    (dispatch convert : Job → Job × Int × Option DErr) (limit : Int)
    (rollbackable : Job → Bool) (job j : Job) (ver : Int) (e : DErr)
    (hf : job.IsFinished = false) (hc : job.IsCancelling = false)
    (hd : dispatch (runDDLJobStartState job) = (j, ver, some e))
    (hnc : j.state ≠ .cancelled) :
    runDDLJob dispatch convert limit rollbackable job
      = (if limit < j.errorCount + 1 ∧ j.state = .running
            ∧ rollbackable { j with error := some e, errorCount := j.errorCount + 1 }
         then ({ j with error := some e, errorCount := j.errorCount + 1,
                        state := .cancelling }, ver, some e)
         else ({ j with error := some e, errorCount := j.errorCount + 1 }, ver, some e))
      ∧ ((runDDLJob dispatch convert limit rollbackable job).1.state = .cancelling
          ↔ ((limit < j.errorCount + 1 ∧ j.state = .running
                ∧ rollbackable { j with error := some e, errorCount := j.errorCount + 1 })
              ∨ j.state = .cancelling)) := by
  have hrun : runDDLJob dispatch convert limit rollbackable job
      = (if limit < j.errorCount + 1 ∧ j.state = .running
            ∧ rollbackable { j with error := some e, errorCount := j.errorCount + 1 }
         then ({ j with error := some e, errorCount := j.errorCount + 1,
                        state := .cancelling }, ver, some e)
         else ({ j with error := some e, errorCount := j.errorCount + 1 }, ver, some e)) := by
    unfold runDDLJob
    simp only [hf, hc, Bool.false_eq_true, if_false, hd]
    simp only [if_neg hnc]
  refine ⟨hrun, ?_⟩
  rw [hrun]
  by_cases hcond : limit < j.errorCount + 1 ∧ j.state = .running
      ∧ rollbackable { j with error := some e, errorCount := j.errorCount + 1 }
  · obtain ⟨hlt, hst, hrb⟩ := hcond
    simp only [if_pos (⟨hlt, hst, hrb⟩ : _ ∧ _ ∧ _)]
    exact ⟨fun _ => Or.inl ⟨hlt, hst, hrb⟩, fun _ => trivial⟩
  · simp only [if_neg hcond]
    constructor
    · intro hst
      exact Or.inr hst
    · intro hst
      rcases hst with hst | hst
      · exact absurd hst hcond
      · exact hst

/-- Witness for claim C8: the dispatch errors on a fresh running job
with error count 0 and limit 0, so the bumped count 1 exceeds the limit
and the always-rollbackable job is force-transitioned to Cancelling. -/
theorem runDDLJob_error_epilogue_witness :
    runDDLJob (fun q => (q, 7, some (.external 0))) (fun q => (q, 0, none)) 0
        (fun _ => true)
        ⟨1, .createTable, 2, 3, .stateNone, .stateNone, none, 0, 0, 0, 1, none, 0⟩
      = (if (0 : Int) < (0 : Int) + 1
            ∧ (JobState.running = JobState.running)
            ∧ (fun (_ : Job) => true)
                { (⟨1, .createTable, 2, 3, .stateNone, .running, none, 0, 0, 0, 1, none, 0⟩ : Job) with
                  error := some (.external 0), errorCount := (0 : Int) + 1 }
         then ({ (⟨1, .createTable, 2, 3, .stateNone, .running, none, 0, 0, 0, 1, none, 0⟩ : Job) with
                 error := some (.external 0), errorCount := (0 : Int) + 1,
                 state := .cancelling }, 7, some (.external 0))
         else ({ (⟨1, .createTable, 2, 3, .stateNone, .running, none, 0, 0, 0, 1, none, 0⟩ : Job) with
                 error := some (.external 0), errorCount := (0 : Int) + 1 }, 7, some (.external 0))) := by
  have h := runDDLJob_error_epilogue (fun q => (q, 7, some (.external 0)))
    (fun q => (q, 0, none)) 0 (fun _ => true)
    ⟨1, .createTable, 2, 3, .stateNone, .stateNone, none, 0, 0, 0, 1, none, 0⟩
    ⟨1, .createTable, 2, 3, .stateNone, .running, none, 0, 0, 0, 1, none, 0⟩
    7 (.external 0) rfl rfl rfl (by decide)
  simpa using h.1

/-- `setOwnQueue` changes only the addressed queue. -/
theorem setOwnQueue_frame (k : WorkerTp) (s : Store) (q : List Job) :
    (setOwnQueue k s q).globalID = s.globalID
      ∧ (setOwnQueue k s q).schemaVersion = s.schemaVersion
      ∧ (setOwnQueue k s q).history = s.history
      ∧ (setOwnQueue k s q).diffs = s.diffs
      ∧ ownQueue k (setOwnQueue k s q) = q
      ∧ otherQueue k (setOwnQueue k s q) = otherQueue k s := by
  cases k <;> exact ⟨rfl, rfl, rfl, rfl, rfl, rfl⟩

/-- Bumping the global ID counter touches neither queue. -/
theorem queues_globalID_frame (k : WorkerTp) (s : Store) (n : Int) :
    ownQueue k { s with globalID := n } = ownQueue k s
      ∧ otherQueue k { s with globalID := n } = otherQueue k s := by
  cases k <;> exact ⟨rfl, rfl⟩

/-- `buildJobDependence` returns its input job with at most the
dependency ID changed. -/
theorem buildJobDependence_shape (dep : Job → Job → Except DErr Bool)
    (jobs : List Job) (curJob res : Job)
    (h : buildJobDependence dep jobs curJob = .ok res) :
    res = { curJob with dependencyID := res.dependencyID } := by
  induction jobs with
  | nil =>
    unfold buildJobDependence at h
    injection h with h2
    subst h2
    rfl
  | cons job rest ih =>
    unfold buildJobDependence at h
    by_cases hlt : curJob.id < job.id
    · rw [if_pos hlt] at h
      exact ih h
    · rw [if_neg hlt] at h
      cases hdep : dep curJob job with
      | error e =>
        rw [hdep] at h
        exact (Except.noConfusion h)
      | ok b =>
        rw [hdep] at h
        dsimp only at h
        by_cases hb : b = true
        · rw [if_pos hb] at h
          injection h with h2
          rw [← h2]
        · rw [if_neg hb] at h
          exact ih h

/-- Claim C1: on a snapshot ordered newest first (as the queue snapshot
of the meta layer is returned) whose IDs differ from the ID of the new
job, `buildJobDependence` leaves the dependency of a fresh job at 0 when
no earlier conflicting job exists, and otherwise sets it to the
conflicting job with the largest ID among those below the ID of the new
job. -/
theorem buildJobDependence_selects_largest (conflict : Job → Job → Bool)
    (jobs : List Job) (curJob res : Job)
    (h0 : curJob.dependencyID = 0)
    (hsorted : jobs.Pairwise (fun a b => b.id < a.id))
    (hne : ∀ j ∈ jobs, j.id ≠ curJob.id)
    (hrun : buildJobDependence (fun a b => .ok (conflict a b)) jobs curJob = .ok res) :
    ((∀ j ∈ jobs, ¬(j.id < curJob.id ∧ conflict curJob j = true))
        → res.dependencyID = 0)
      ∧ (∀ j0 ∈ jobs, j0.id < curJob.id → conflict curJob j0 = true →
          ∃ jm ∈ jobs, jm.id < curJob.id ∧ conflict curJob jm = true
            ∧ res.dependencyID = jm.id
            ∧ ∀ k ∈ jobs, k.id < curJob.id → conflict curJob k = true
                → k.id ≤ jm.id) := by
  induction jobs with
  | nil =>
    unfold buildJobDependence at hrun
    injection hrun with h2
    subst h2
    refine ⟨fun _ => h0, ?_⟩
    intro j0 hj0
    cases hj0
  | cons job rest ih =>
    rw [List.pairwise_cons] at hsorted
    obtain ⟨hlt_all, hsorted'⟩ := hsorted
    have hne' : ∀ j ∈ rest, j.id ≠ curJob.id :=
      fun j hj => hne j (List.mem_cons_of_mem _ hj)
    unfold buildJobDependence at hrun
    by_cases hlt : curJob.id < job.id
    · rw [if_pos hlt] at hrun
      have IH := ih hsorted' hne' hrun
      constructor
      · intro hno
        exact IH.1 fun j hj => hno j (List.mem_cons_of_mem _ hj)
      · intro j0 hj0 hidlt hconf
        rcases List.mem_cons.mp hj0 with rfl | hj0r
        · omega
        · obtain ⟨jm, hjmmem, hjmlt, hjmconf, hdep, hmax⟩ :=
            IH.2 j0 hj0r hidlt hconf
          refine ⟨jm, List.mem_cons_of_mem _ hjmmem, hjmlt, hjmconf, hdep, ?_⟩
          intro k hk hk1 hk2
          rcases List.mem_cons.mp hk with rfl | hkr
          · omega
          · exact hmax k hkr hk1 hk2
    · have hjoblt : job.id < curJob.id := by
        have := hne job (List.mem_cons_self _ _)
        omega
      rw [if_neg hlt] at hrun
      dsimp only at hrun
      by_cases hconf : conflict curJob job = true
      · rw [if_pos hconf] at hrun
        injection hrun with h2
        constructor
        · intro hno
          exact absurd ⟨hjoblt, hconf⟩ (hno job (List.mem_cons_self _ _))
        · intro j0 hj0 h1 h2r
          refine ⟨job, List.mem_cons_self _ _, hjoblt, hconf, by rw [← h2], ?_⟩
          intro k hk hk1 hk2
          rcases List.mem_cons.mp hk with rfl | hkr
          · exact le_refl _
          · exact le_of_lt (hlt_all k hkr)
      · rw [if_neg hconf] at hrun
        have IH := ih hsorted' hne' hrun
        constructor
        · intro hno
          exact IH.1 fun j hj => hno j (List.mem_cons_of_mem _ hj)
        · intro j0 hj0 h1 h2r
          rcases List.mem_cons.mp hj0 with rfl | hj0r
          · exact absurd h2r hconf
          · obtain ⟨jm, hjmmem, hjmlt, hjmconf, hdep, hmax⟩ :=
              IH.2 j0 hj0r h1 h2r
            refine ⟨jm, List.mem_cons_of_mem _ hjmmem, hjmlt, hjmconf, hdep, ?_⟩
            intro k hk hk1 hk2
            rcases List.mem_cons.mp hk with rfl | hkr
            · exact absurd hk2 hconf
            · exact hmax k hkr hk1 hk2

/-- Witness for claim C1: snapshot of IDs 8, 5, 3 (newest first), new
job of ID 6 with everything conflicting; the dependency becomes 5, the
largest conflicting ID below 6, skipping 8. -/
theorem buildJobDependence_selects_largest_witness :
    ((∀ j ∈ [(⟨8, .addIndex, 1, 1, .public, .running, none, 0, 0, 0, 1, none, 0⟩ : Job),
              ⟨5, .addIndex, 1, 1, .public, .running, none, 0, 0, 0, 1, none, 0⟩,
              ⟨3, .addIndex, 1, 1, .public, .running, none, 0, 0, 0, 1, none, 0⟩],
        ¬(j.id < (⟨6, .createTable, 1, 1, .public, .stateNone, none, 0, 0, 0, 1, none, 0⟩ : Job).id
            ∧ (fun (_ _ : Job) => true)
                ⟨6, .createTable, 1, 1, .public, .stateNone, none, 0, 0, 0, 1, none, 0⟩ j = true))
        → (⟨6, .createTable, 1, 1, .public, .stateNone, none, 0, 5, 0, 1, none, 0⟩ : Job).dependencyID = 0)
      ∧ (∀ j0 ∈ [(⟨8, .addIndex, 1, 1, .public, .running, none, 0, 0, 0, 1, none, 0⟩ : Job),
              ⟨5, .addIndex, 1, 1, .public, .running, none, 0, 0, 0, 1, none, 0⟩,
              ⟨3, .addIndex, 1, 1, .public, .running, none, 0, 0, 0, 1, none, 0⟩],
          j0.id < (⟨6, .createTable, 1, 1, .public, .stateNone, none, 0, 0, 0, 1, none, 0⟩ : Job).id
          → (fun (_ _ : Job) => true)
              ⟨6, .createTable, 1, 1, .public, .stateNone, none, 0, 0, 0, 1, none, 0⟩ j0 = true
          → ∃ jm ∈ [(⟨8, .addIndex, 1, 1, .public, .running, none, 0, 0, 0, 1, none, 0⟩ : Job),
              ⟨5, .addIndex, 1, 1, .public, .running, none, 0, 0, 0, 1, none, 0⟩,
              ⟨3, .addIndex, 1, 1, .public, .running, none, 0, 0, 0, 1, none, 0⟩],
            jm.id < (⟨6, .createTable, 1, 1, .public, .stateNone, none, 0, 0, 0, 1, none, 0⟩ : Job).id
              ∧ (fun (_ _ : Job) => true)
                  ⟨6, .createTable, 1, 1, .public, .stateNone, none, 0, 0, 0, 1, none, 0⟩ jm = true
              ∧ (⟨6, .createTable, 1, 1, .public, .stateNone, none, 0, 5, 0, 1, none, 0⟩ : Job).dependencyID = jm.id
              ∧ ∀ k ∈ [(⟨8, .addIndex, 1, 1, .public, .running, none, 0, 0, 0, 1, none, 0⟩ : Job),
                  ⟨5, .addIndex, 1, 1, .public, .running, none, 0, 0, 0, 1, none, 0⟩,
                  ⟨3, .addIndex, 1, 1, .public, .running, none, 0, 0, 0, 1, none, 0⟩],
                k.id < (⟨6, .createTable, 1, 1, .public, .stateNone, none, 0, 0, 0, 1, none, 0⟩ : Job).id
                → (fun (_ _ : Job) => true)
                    ⟨6, .createTable, 1, 1, .public, .stateNone, none, 0, 0, 0, 1, none, 0⟩ k = true
                → k.id ≤ jm.id) :=
  buildJobDependence_selects_largest (fun _ _ => true)
    [⟨8, .addIndex, 1, 1, .public, .running, none, 0, 0, 0, 1, none, 0⟩,
     ⟨5, .addIndex, 1, 1, .public, .running, none, 0, 0, 0, 1, none, 0⟩,
     ⟨3, .addIndex, 1, 1, .public, .running, none, 0, 0, 0, 1, none, 0⟩]
    ⟨6, .createTable, 1, 1, .public, .stateNone, none, 0, 0, 0, 1, none, 0⟩
    ⟨6, .createTable, 1, 1, .public, .stateNone, none, 0, 5, 0, 1, none, 0⟩
    rfl (by decide) (by decide) rfl

/-- Claim C7: `addDDLJob` either rolls back leaving no committed state
(the error case), or commits a state in which, at once, the global ID
counter moved up by one, the job carrying exactly that new ID and the
transaction start timestamp as its StartTS was appended to the queue of
its kind with its dependency computed by `buildJobDependence`, and
nothing else changed: an ID is never handed out without the insertion,
and no insertion happens without the ID. -/
theorem addDDLJob_atomic (dep : Job → Job → Except DErr Bool)
    (genIDErr enqueueErr : Option DErr) (txnStartTS : Nat) (job : Job) (s : Store) :
    (∃ e, addDDLJob dep genIDErr enqueueErr txnStartTS job s = .error e)
      ∨ (∃ j2 s2, addDDLJob dep genIDErr enqueueErr txnStartTS job s = .ok s2
          ∧ s2.globalID = s.globalID + 1
          ∧ j2.id = s.globalID + 1
          ∧ j2.startTS = txnStartTS
          ∧ j2.version = currentVersion
          ∧ ownQueue (jobWorkerTp job.type) s2
              = ownQueue (jobWorkerTp job.type) s ++ [j2]
          ∧ otherQueue (jobWorkerTp job.type) s2 = otherQueue (jobWorkerTp job.type) s
          ∧ s2.history = s.history
          ∧ s2.schemaVersion = s.schemaVersion
          ∧ s2.diffs = s.diffs
          ∧ buildJobDependence dep
              (otherQueue (jobWorkerTp job.type) { s with globalID := s.globalID + 1 })
              { job with version := currentVersion, id := s.globalID + 1,
                         startTS := txnStartTS } = .ok j2) := by
  cases genIDErr with
  | some e => exact Or.inl ⟨e, rfl⟩
  | none =>
    cases hb : buildJobDependence dep
        (otherQueue (jobWorkerTp job.type) { s with globalID := s.globalID + 1 })
        { job with version := currentVersion, id := s.globalID + 1,
                   startTS := txnStartTS } with
    | error e =>
      refine Or.inl ⟨e, ?_⟩
      unfold addDDLJob
      rw [hb]
    | ok j2 =>
      cases enqueueErr with
      | some e =>
        refine Or.inl ⟨e, ?_⟩
        unfold addDDLJob
        rw [hb]
      | none =>
        have hshape := buildJobDependence_shape dep _ _ _ hb
        refine Or.inr ⟨j2,
          setOwnQueue (jobWorkerTp job.type) { s with globalID := s.globalID + 1 }
            (ownQueue (jobWorkerTp job.type) { s with globalID := s.globalID + 1 }
              ++ [j2]), ?_, ?_, ?_, ?_, ?_, ?_, ?_, ?_, ?_, ?_, rfl⟩
        · unfold addDDLJob
          rw [hb]
        · exact (setOwnQueue_frame _ _ _).1
        · rw [hshape]
        · rw [hshape]
        · rw [hshape]
        · rw [(setOwnQueue_frame _ _ _).2.2.2.2.1,
            (queues_globalID_frame (jobWorkerTp job.type) s (s.globalID + 1)).1]
        · rw [(setOwnQueue_frame _ _ _).2.2.2.2.2,
            (queues_globalID_frame (jobWorkerTp job.type) s (s.globalID + 1)).2]
        · exact (setOwnQueue_frame _ _ _).2.2.1
        · exact (setOwnQueue_frame _ _ _).2.1
        · exact (setOwnQueue_frame _ _ _).2.2.2.1

/-- A successful `finishDDLJob` dequeues the head of the own queue and,
in the same resulting store, appends the finished job (with its binlog
finish timestamp set) to history, touching nothing else. -/
theorem finishDDLJob_ok (wtp : WorkerTp) (dre rre : Option DErr) (ts : Nat)
    (job : Job) (s s' : Store)
    (h : finishDDLJob wtp dre rre ts job s = .ok s') :
    ownQueue wtp s' = (ownQueue wtp s).drop 1
      ∧ s'.history = s.history ++ [{ job with binlogFinishedTS := ts }]
      ∧ otherQueue wtp s' = otherQueue wtp s
      ∧ s'.globalID = s.globalID
      ∧ s'.schemaVersion = s.schemaVersion
      ∧ s'.diffs = s.diffs := by
  unfold finishDDLJob at h
  cases hp : finishDDLJobPrepErr dre rre job with
  | some e =>
    rw [hp] at h
    exact Except.noConfusion h
  | none =>
    rw [hp] at h
    injection h with h2
    subst h2
    cases wtp <;> exact ⟨rfl, rfl, rfl, rfl, rfl, rfl⟩

/-- The post-dependency part of the transaction body either leaves the
store unchanged, or dequeues the head while appending to history a job
carrying the ID of the input job in a terminal state, or rewrites queue
position 0 with a job carrying the ID of the input job while leaving the
history alone. -/
theorem handleDDLJobQueueTxnRun_safe (wtp : WorkerTp)
    (stepRes : Job → Store → StepOutcome) (once : Bool)
    (dre rre : Option DErr) (ue : Option UpdateJobErr) (ts : Nat)
    (job1 : Job) (s s' : Store)
    (hid : ∀ j st, ((stepRes j st).job).id = j.id)
    (hque : ∀ j st, ownQueue wtp (stepRes j st).store = ownQueue wtp st)
    (hhis : ∀ j st, ((stepRes j st).store).history = st.history)
    (hrun : handleDDLJobQueueTxnRun wtp stepRes once dre rre ue ts job1 s = .ok s') :
    s' = s
      ∨ (ownQueue wtp s' = (ownQueue wtp s).drop 1
          ∧ ∃ jf, s'.history = s.history ++ [jf] ∧ jf.id = job1.id
              ∧ (jf.state = .synced ∨ jf.state = .rollbackDone ∨ jf.state = .cancelled))
      ∨ (∃ job2, job2.id = job1.id ∧ s'.history = s.history
          ∧ ownQueue wtp s' = (ownQueue wtp s).set 0 job2) := by
  have hafterid : (jobAfterStep (stepRes job1 s)).id = job1.id := by
    unfold jobAfterStep
    by_cases hp : (stepRes job1 s).panicked = true
    · rw [if_pos hp]
      exact hid job1 s
    · rw [if_neg hp]
      exact hid job1 s
  unfold handleDDLJobQueueTxnRun at hrun
  by_cases h1 : once = true
  · rw [if_pos h1] at hrun
    injection hrun with h2
    exact Or.inl h2.symm
  · rw [if_neg h1] at hrun
    by_cases h2 : (job1.IsDone || job1.IsRollbackDone) = true
    · rw [if_pos h2] at hrun
      have hff := finishDDLJob_ok _ _ _ _ _ _ _ hrun
      refine Or.inr (Or.inl ⟨hff.1, _, hff.2.1, ?_, ?_⟩)
      · by_cases hrb : job1.IsRollbackDone = true
        · simp [hrb]
        · simp [hrb]
      · by_cases hrb : job1.IsRollbackDone = true
        · have hst : job1.state = .rollbackDone := by
            have := hrb
            unfold Job.IsRollbackDone at this
            simpa using this
          simp [hrb, hst]
        · simp [hrb]
    · rw [if_neg h2] at hrun
      by_cases h3 : (jobAfterStep (stepRes job1 s)).IsCancelled = true
      · rw [if_pos h3] at hrun
        have hff := finishDDLJob_ok _ _ _ _ _ _ _ hrun
        have hst : (jobAfterStep (stepRes job1 s)).state = .cancelled := by
          have := h3
          unfold Job.IsCancelled at this
          simpa using this
        refine Or.inr (Or.inl ⟨hff.1, _, hff.2.1, ?_, ?_⟩)
        · simpa using hafterid
        · simp [hst]
      · rw [if_neg h3] at hrun
        cases ue with
        | none =>
          injection hrun with h4
          subst h4
          refine Or.inr (Or.inr ⟨jobAfterStep (stepRes job1 s), hafterid, ?_, ?_⟩)
          · rw [(setOwnQueue_frame _ _ _).2.2.1]
            exact hhis job1 s
          · rw [(setOwnQueue_frame _ _ _).2.2.2.2.1, hque job1 s]
        | some ue2 =>
          cases ue2 with
          | entryTooLarge =>
            have hff := finishDDLJob_ok _ _ _ _ _ _ _ hrun
            have hh2 : s'.history = s.history
                ++ [{ jobAfterStep (stepRes job1 s) with
                      error := some .entryTooLarge,
                      schemaState := .stateNone,
                      state := .cancelled,
                      binlogFinishedTS := ts }] := by
              rw [hff.2.1, hhis job1 s]
            refine Or.inr (Or.inl ⟨?_, _, hh2, ?_, ?_⟩)
            · rw [hff.1, hque job1 s]
            · simpa using hafterid
            · simp
          | other e =>
            exact Except.noConfusion hrun

/-- Claim C5: one transaction-body iteration of `handleDDLJobQueue`
never loses a job: every job ID present in the own queue beforehand is,
in the committed store, either still in the own queue or recorded in
history in a terminal state (Synced, RollbackDone as finalized rollback,
or Cancelled) — the dequeue and the history append land in the same
committed store, and a dequeue happens only with such a terminal history
record. -/
theorem handleDDLJobQueueTxn_dequeue_safe (wtp : WorkerTp)
    (stepRes : Job → Store → StepOutcome) (isOwner once : Bool)
    (dre rre : Option DErr) (ue : Option UpdateJobErr) (ts : Nat) (s s' : Store)
    (hid : ∀ j st, ((stepRes j st).job).id = j.id)
    (hque : ∀ j st, ownQueue wtp (stepRes j st).store = ownQueue wtp st)
    (hhis : ∀ j st, ((stepRes j st).store).history = st.history)
    (hrun : handleDDLJobQueueTxn wtp stepRes isOwner once dre rre ue ts s = .ok s') :
    ∀ id : Int, (∃ j ∈ ownQueue wtp s, j.id = id) →
      (∃ j ∈ ownQueue wtp s', j.id = id)
        ∨ (∃ j ∈ s'.history, j.id = id
            ∧ (j.state = .synced ∨ j.state = .rollbackDone ∨ j.state = .cancelled)) := by
  intro id hmem
  unfold handleDDLJobQueueTxn at hrun
  by_cases how : isOwner = false
  · rw [if_pos how] at hrun
    injection hrun with h2
    subst h2
    exact Or.inl hmem
  · rw [if_neg how] at hrun
    cases hq : (ownQueue wtp s).head? with
    | none =>
      rw [hq] at hrun
      injection hrun with h2
      subst h2
      exact Or.inl hmem
    | some job =>
      rw [hq] at hrun
      dsimp only at hrun
      by_cases hdep : (job.dependencyID == noneDependencyJob
          || s.history.any fun h => h.id == job.dependencyID) = false
      · rw [if_pos hdep] at hrun
        injection hrun with h2
        subst h2
        exact Or.inl hmem
      · rw [if_neg hdep] at hrun
        have hj1id : (if job.dependencyID == noneDependencyJob then job
            else { job with dependencyID := noneDependencyJob }).id = job.id := by
          by_cases hdd : (job.dependencyID == noneDependencyJob) = true
          · rw [if_pos hdd]
          · rw [if_neg hdd]
        obtain ⟨t, ht⟩ : ∃ t, ownQueue wtp s = job :: t := by
          cases hqq : ownQueue wtp s with
          | nil =>
            rw [hqq] at hq
            exact absurd hq (by simp)
          | cons a t2 =>
            rw [hqq] at hq
            simp only [List.head?_cons, Option.some.injEq] at hq
            exact ⟨t2, by rw [hq]⟩
        rcases handleDDLJobQueueTxnRun_safe wtp stepRes once dre rre ue ts
            _ s s' hid hque hhis hrun with hsame | ⟨hqd, jf, hh, hjid, hjst⟩
            | ⟨job2, hj2id, hh, hqd⟩
        · subst hsame
          exact Or.inl hmem
        · rcases hmem with ⟨j, hjm, hjid0⟩
          rw [ht] at hjm
          rcases List.mem_cons.mp hjm with rfl | hjt
          · refine Or.inr ⟨jf, ?_, ?_, hjst⟩
            · rw [hh]
              exact List.mem_append_right _ (List.mem_singleton.mpr rfl)
            · rw [hjid, hj1id, hjid0]
          · refine Or.inl ⟨j, ?_, hjid0⟩
            rw [hqd, ht]
            exact hjt
        · rcases hmem with ⟨j, hjm, hjid0⟩
          rw [ht] at hjm
          rcases List.mem_cons.mp hjm with rfl | hjt
          · refine Or.inl ⟨job2, ?_, ?_⟩
            · rw [hqd, ht, List.set_cons_zero]
              exact List.mem_cons_self _ _
            · rw [hj2id, hj1id, hjid0]
          · refine Or.inl ⟨j, ?_, hjid0⟩
            rw [hqd, ht, List.set_cons_zero]
            exact List.mem_cons_of_mem _ hjt

/-- Witness for claim C5: a general worker finalizes a done job of ID 4;
ID 4 ends up in history in the Synced state. -/
theorem handleDDLJobQueueTxn_dequeue_safe_witness :
    (∃ j ∈ ownQueue .general
        ⟨0, 0, [], [],
          [⟨4, .createTable, 1, 2, .public, .synced, none, 0, 0, 0, 1, none, 7⟩], []⟩,
      j.id = 4)
      ∨ (∃ j ∈ (⟨0, 0, [], [],
            [⟨4, .createTable, 1, 2, .public, .synced, none, 0, 0, 0, 1, none, 7⟩], []⟩ : Store).history,
          j.id = 4
            ∧ (j.state = .synced ∨ j.state = .rollbackDone ∨ j.state = .cancelled)) :=
  handleDDLJobQueueTxn_dequeue_safe .general
    (fun j st => ⟨j, 0, none, st, false⟩) true false none none none 7
    ⟨0, 0, [⟨4, .createTable, 1, 2, .public, .done, none, 0, 0, 0, 1, none, 0⟩], [], [], []⟩
    ⟨0, 0, [], [],
      [⟨4, .createTable, 1, 2, .public, .synced, none, 0, 0, 0, 1, none, 7⟩], []⟩
    (fun _ _ => rfl) (fun _ _ => rfl) (fun _ _ => rfl) rfl 4
    ⟨⟨4, .createTable, 1, 2, .public, .done, none, 0, 0, 0, 1, none, 0⟩,
      List.mem_singleton_self _, rfl⟩

end Tidb
